import Mathlib

/-!
Verification of the `chksum-reader` crate (src/src/lib.rs): a transparent
wrapper around a readable stream that feeds every byte returned by the
inner stream into an incremental hash accumulator.

Shallow embedding conventions:
* Bytes are modelled as `Nat`; an `io::Error` value is opaque and modelled
  as `Nat` (`IoError`).
* The two external capabilities (hash accumulator, readable stream) are
  opaque in the crate and are modelled as explicit capability records
  (`HashCap`, `ReadCap`, `BufCap`, `AsyncReadCap`), so theorems quantify
  over every possible inner stream and hash algorithm.
* Rust's in-place buffer mutation is modelled by returning the new buffer
  contents; mutation of `self` is modelled by returning the new wrapper
  state.
* A Rust panic (out-of-bounds slice `&buf[..n]`) is modelled by the
  `RwOut.panicked` outcome, produced when `sliceTo` fails.
-/

namespace Chksum

/-- A byte value. -/
abbrev Byte := Nat

/-- An opaque `std::io::Error` value, passed through unchanged. -/
abbrev IoError := Nat

/-- The hash capability (`chksum_core::Hash`), opaque to the wrapper:
a default (fresh) accumulator state, an `update` that feeds a byte slice,
and a `digest` observation. -/
structure HashCap (St D : Type) where
  dflt : St
  update : St → List Byte → St
  digest : St → D

/-- Outcome of an inner `Read::read` call: `ok n buf s` means the call
returned `Ok(n)` leaving the (same-object, possibly rewritten) buffer with
contents `buf` and the inner stream in state `s`; `err e s` means the call
returned `Err(e)`. -/
inductive ReadOut (σ : Type) where
  | ok (n : Nat) (buf : List Byte) (s : σ) : ReadOut σ
  | err (e : IoError) (s : σ) : ReadOut σ
  deriving DecidableEq

/-- The synchronous readable-stream capability (`std::io::Read`). -/
structure ReadCap (σ : Type) where
  read : σ → List Byte → ReadOut σ

/-- The buffered extension of the stream capability (`std::io::BufRead`):
`fill_buf` yields a borrowed view of the internal buffer (or an error) and
the new stream state; `consume amt` advances the internal buffer. -/
structure BufCap (σ : Type) where
  fill_buf : σ → Except IoError (List Byte) × σ
  consume : σ → Nat → σ

/-- The wrapper `Reader<R, H>`: inner stream state paired with the hash
accumulator state (src/src/lib.rs lines 114-122). -/
structure Reader (σ St : Type) where
  inner : σ
  hash : St
  deriving DecidableEq

/-- `Reader::with_hash(inner, hash)` — pure pairing (lines 136-139). -/
def Reader.with_hash (inner : σ) (hash : St) : Reader σ St :=
  { inner := inner, hash := hash }

/-- `Reader::new(inner)` — pairs the stream with `H::default()`
(lines 129-133). -/
def Reader.new (HC : HashCap St D) (inner : σ) : Reader σ St :=
  Reader.with_hash inner HC.dflt

/-- `Reader::into_inner` — returns the `inner` field, discarding `hash`
(lines 142-146). -/
def Reader.into_inner (r : Reader σ St) : σ :=
  r.inner

/-- `Reader::digest` — `self.hash.digest()` (lines 149-153). -/
def Reader.digest (HC : HashCap St D) (r : Reader σ St) : D :=
  HC.digest r.hash

/-- Rust slice `&buf[..n]`: defined when `n ≤ buf.len()`, otherwise the
program panics (`none`). -/
def sliceTo (buf : List Byte) (n : Nat) : Option (List Byte) :=
  if n ≤ buf.length then some (List.take n buf) else none

/-- Outcome of the wrapper's `read`: success with the byte count, the
buffer contents after the call and the new wrapper state; an error with
the new wrapper state; or a panic. -/
inductive RwOut (σ St : Type) where
  | ok (n : Nat) (buf : List Byte) (r : Reader σ St) : RwOut σ St
  | err (e : IoError) (r : Reader σ St) : RwOut σ St
  | panicked : RwOut σ St
  deriving DecidableEq

/-- `<Reader as Read>::read` (lines 160-164):
`let n = self.inner.read(buf)?; self.hash.update(&buf[..n]); Ok(n)`. -/
def Reader.read (RC : ReadCap σ) (HC : HashCap St D) (r : Reader σ St)
    (buf : List Byte) : RwOut σ St :=
  match RC.read r.inner buf with
  | ReadOut.ok n buf' s =>
    match sliceTo buf' n with
    | some sl => RwOut.ok n buf' { inner := s, hash := HC.update r.hash sl }
    | none => RwOut.panicked
  | ReadOut.err e s => RwOut.err e { inner := s, hash := r.hash }

/-- `<Reader as BufRead>::fill_buf` (lines 176-178): delegates to
`self.inner.fill_buf()`; the hash is untouched. -/
def Reader.fill_buf (BC : BufCap σ) (r : Reader σ St) :
    Except IoError (List Byte) × Reader σ St :=
  let p := BC.fill_buf r.inner
  (p.1, { inner := p.2, hash := r.hash })

/-- `<Reader as BufRead>::consume` (lines 172-174): delegates to
`self.inner.consume(amt)`; the hash is untouched. -/
def Reader.consume (BC : BufCap σ) (r : Reader σ St) (amt : Nat) :
    Reader σ St :=
  { inner := BC.consume r.inner amt, hash := r.hash }

/-- One caller-visible operation on the wrapper: a `read` with a buffer of
given initial contents, a `fill_buf`, or a `consume`. -/
inductive Op where
  | read (buf : List Byte) : Op
  | fill_buf : Op
  | consume (amt : Nat) : Op
  deriving DecidableEq

/-- One step of wrapper execution: returns the new wrapper state together
with the list of byte slices this operation delivered to the caller
(`[buf'[0..n]]` for a successful read, `[]` otherwise), or `none` if the
operation panicked. -/
def Reader.step (RC : ReadCap σ) (BC : BufCap σ) (HC : HashCap St D)
    (r : Reader σ St) : Op → Option (Reader σ St × List (List Byte))
  | Op.read buf =>
    match Reader.read RC HC r buf with
    | RwOut.ok n buf' r' => some (r', [List.take n buf'])
    | RwOut.err _ r' => some (r', [])
    | RwOut.panicked => none
  | Op.fill_buf => some ((Reader.fill_buf BC r).2, [])
  | Op.consume amt => some (Reader.consume BC r amt, [])

/-- Execution of a sequence of operations, accumulating the trace of byte
slices delivered to the caller by successful reads. -/
def Reader.run (RC : ReadCap σ) (BC : BufCap σ) (HC : HashCap St D)
    (r : Reader σ St) : List Op → Option (Reader σ St × List (List Byte))
  | [] => some (r, [])
  | op :: ops =>
    match Reader.step RC BC HC r op with
    | some (r', tr) =>
      match Reader.run RC BC HC r' ops with
      | some (r'', tr') => some (r'', tr ++ tr')
      | none => none
    | none => none

/-! ### Concrete instantiations used by the witnesses -/

/-- A concrete honest inner stream: the state is the list of bytes not yet
read; `read` copies as many bytes as fit into the buffer. -/
def listRead : ReadCap (List Byte) :=
  { read := fun s buf =>
      let n := min buf.length s.length
      ReadOut.ok n (List.take n s ++ List.drop n buf) (List.drop n s) }

/-- A concrete buffered capability on the same state: `fill_buf` exposes
the whole remaining stream, `consume` drops bytes from its front. -/
def listBufCap : BufCap (List Byte) :=
  { fill_buf := fun s => (Except.ok s, s)
    consume := fun s amt => List.drop amt s }

/-- A concrete hash capability: the state is the concatenation of all
bytes fed so far, `digest` returns it unchanged. -/
def listHash : HashCap (List Byte) (List Byte) :=
  { dflt := []
    update := fun st bs => st ++ bs
    digest := fun st => st }

/-- A concrete stream that errors on every read, leaving its state
unchanged. -/
def errRead : ReadCap Unit :=
  { read := fun s _ => ReadOut.err 5 s }

/-- A misbehaving inner stream that violates the `Read` contract by
claiming to have filled more bytes than the buffer holds. -/
def badRead : ReadCap Unit :=
  { read := fun s buf => ReadOut.ok (buf.length + 1) buf s }

/-! ### Asynchronous wrapper -/

/-- `tokio::io::ReadBuf`: the already-filled bytes (`buf.filled()`) and
the remaining unfilled capacity. -/
structure ReadBuf where
  filled : List Byte
  remaining : Nat
  deriving DecidableEq

/-- Outcome of an inner `poll_read`: ready with success, ready with an
error, or pending; in each case the (possibly extended) buffer and the
new inner state. -/
inductive PollOut (σ : Type) where
  | ready_ok (buf : ReadBuf) (s : σ) : PollOut σ
  | ready_err (e : IoError) (buf : ReadBuf) (s : σ) : PollOut σ
  | pending (buf : ReadBuf) (s : σ) : PollOut σ
  deriving DecidableEq

/-- The asynchronous readable-stream capability (`tokio::io::AsyncRead`),
with the waker/context elided: one poll step is a function of the inner
state and the buffer. -/
structure AsyncReadCap (σ : Type) where
  poll_read : σ → ReadBuf → PollOut σ

/-- The wrapper `AsyncReader<R, H>` (src/src/lib.rs lines 182-191). -/
structure AsyncReader (σ St : Type) where
  inner : σ
  hash : St
  deriving DecidableEq

/-- `AsyncReader::with_hash` — pure pairing (lines 206-209). -/
def AsyncReader.with_hash (inner : σ) (hash : St) : AsyncReader σ St :=
  { inner := inner, hash := hash }

/-- `AsyncReader::new` (lines 200-203). -/
def AsyncReader.new (HC : HashCap St D) (inner : σ) : AsyncReader σ St :=
  AsyncReader.with_hash inner HC.dflt

/-- `AsyncReader::into_inner` (lines 212-216). -/
def AsyncReader.into_inner (r : AsyncReader σ St) : σ :=
  r.inner

/-- `AsyncReader::digest` — `self.hash.digest()` (lines 219-222). -/
def AsyncReader.digest (HC : HashCap St D) (r : AsyncReader σ St) : D :=
  HC.digest r.hash

/-- The poll result reported to the caller (`Poll<io::Result<()>>`). -/
inductive APoll where
  | ready_ok : APoll
  | ready_err (e : IoError) : APoll
  | pending : APoll
  deriving DecidableEq

/-- `<AsyncReader as AsyncRead>::poll_read` (lines 231-240): polls the
inner stream; on `Poll::Ready(Ok(()))` calls `hash.update(buf.filled())`
— the ENTIRE filled region of the buffer — before reporting readiness;
any other poll outcome is forwarded with the hash untouched. Returns the
caller-visible poll result, the buffer after the call, and the new
wrapper state. -/
def AsyncReader.poll_read (PC : AsyncReadCap σ) (HC : HashCap St D)
    (r : AsyncReader σ St) (buf : ReadBuf) :
    APoll × ReadBuf × AsyncReader σ St :=
  match PC.poll_read r.inner buf with
  | PollOut.ready_ok buf' s =>
    (APoll.ready_ok, buf', { inner := s, hash := HC.update r.hash buf'.filled })
  | PollOut.ready_err e buf' s =>
    (APoll.ready_err e, buf', { inner := s, hash := r.hash })
  | PollOut.pending buf' s =>
    (APoll.pending, buf', { inner := s, hash := r.hash })

/-- A concrete honest async inner stream: the state is the list of bytes
not yet delivered; each ready poll appends as many bytes as the remaining
capacity allows to the filled region. -/
def listPoll : AsyncReadCap (List Byte) :=
  { poll_read := fun s buf =>
      let n := min buf.remaining s.length
      PollOut.ready_ok
        { filled := buf.filled ++ List.take n s, remaining := buf.remaining - n }
        (List.drop n s) }

/-! ### Helper lemmas shared by the claim theorems -/

/-- Inversion of the wrapper's `read` when the inner read succeeds with an
honest byte count: the slice `&buf[..n]` exists and is fed to the hash. -/
theorem Reader.read_ok_of_le (RC : ReadCap σ) (HC : HashCap St D)
    (r : Reader σ St) (buf : List Byte) (n : Nat) (buf' : List Byte) (s : σ)
    (h : RC.read r.inner buf = ReadOut.ok n buf' s) (hn : n ≤ buf'.length) :
    Reader.read RC HC r buf =
      RwOut.ok n buf' { inner := s, hash := HC.update r.hash (List.take n buf') } := by
  unfold Reader.read
  rw [h]
  simp [sliceTo, hn]

/-- When the inner read claims more bytes than the buffer holds, the
slice `&buf[..n]` is out of bounds and the wrapper panics. -/
theorem Reader.read_panic_of_gt (RC : ReadCap σ) (HC : HashCap St D)
    (r : Reader σ St) (buf : List Byte) (n : Nat) (buf' : List Byte) (s : σ)
    (h : RC.read r.inner buf = ReadOut.ok n buf' s) (hn : buf'.length < n) :
    Reader.read RC HC r buf = RwOut.panicked := by
  unfold Reader.read
  rw [h]
  simp [sliceTo, Nat.not_le.mpr hn]

/-- When the inner read fails, `?` propagates the same error and the hash
field is untouched. -/
theorem Reader.read_err (RC : ReadCap σ) (HC : HashCap St D)
    (r : Reader σ St) (buf : List Byte) (e : IoError) (s : σ)
    (h : RC.read r.inner buf = ReadOut.err e s) :
    Reader.read RC HC r buf = RwOut.err e { inner := s, hash := r.hash } := by
  unfold Reader.read
  rw [h]

/-- One step of execution updates the hash by folding `update` over
exactly the slices that step delivered. -/
theorem Reader.step_hash (RC : ReadCap σ) (BC : BufCap σ) (HC : HashCap St D)
    (r : Reader σ St) (op : Op) (r' : Reader σ St) (tr : List (List Byte))
    (h : Reader.step RC BC HC r op = some (r', tr)) :
    r'.hash = List.foldl HC.update r.hash tr := by
  cases op with
  | read buf =>
    simp only [Reader.step, Reader.read] at h
    cases hrc : RC.read r.inner buf with
    | ok n b s =>
      rw [hrc] at h
      by_cases hn : n ≤ b.length
      · simp only [sliceTo, if_pos hn] at h
        cases h
        simp
      · simp only [sliceTo, if_neg hn] at h
        cases h
    | err e s =>
      rw [hrc] at h
      cases h
      simp
  | fill_buf =>
    simp only [Reader.step] at h
    cases h
    simp [Reader.fill_buf]
  | consume amt =>
    simp only [Reader.step] at h
    cases h
    simp [Reader.consume]

/-- Execution of an operation sequence updates the hash by folding
`update` over exactly the delivered trace. -/
theorem Reader.run_hash (RC : ReadCap σ) (BC : BufCap σ) (HC : HashCap St D) :
    ∀ (ops : List Op) (r r' : Reader σ St) (tr : List (List Byte)),
    Reader.run RC BC HC r ops = some (r', tr) →
    r'.hash = List.foldl HC.update r.hash tr := by
  intro ops
  induction ops with
  | nil =>
    intro r r' tr h
    simp only [Reader.run] at h
    cases h
    simp
  | cons op ops ih =>
    intro r r' tr h
    simp only [Reader.run] at h
    cases hs : Reader.step RC BC HC r op with
    | none => rw [hs] at h; cases h
    | some p =>
      obtain ⟨r₁, tr₁⟩ := p
      rw [hs] at h
      dsimp only at h
      cases hr : Reader.run RC BC HC r₁ ops with
      | none => rw [hr] at h; cases h
      | some q =>
        obtain ⟨r₂, tr₂⟩ := q
        rw [hr] at h
        simp only [Option.some.injEq, Prod.mk.injEq] at h
        obtain ⟨h₁, h₂⟩ := h
        subst h₁
        subst h₂
        rw [List.foldl_append, ← Reader.step_hash RC BC HC r op r₁ tr₁ hs]
        exact ih r₁ r₂ tr₂ hr

/-- Folding `update` over a list of slices is a single `update` with
their concatenation, when `update` is a monoid action on the state. -/
theorem foldl_update_flatten (HC : HashCap St D)
    (hempty : ∀ st, HC.update st [] = st)
    (hcompat : ∀ st a b, HC.update (HC.update st a) b = HC.update st (a ++ b)) :
    ∀ (tr : List (List Byte)) (st : St),
    List.foldl HC.update st tr = HC.update st tr.flatten := by
  intro tr
  induction tr with
  | nil => intro st; simp [hempty]
  | cons a tl ih =>
    intro st
    simp only [List.foldl_cons, List.flatten_cons]
    rw [ih, hcompat]

/-! ### Claim theorems -/

/-- Claim C1: for the synchronous wrapper, at every observation point
(after any non-panicking sequence of `read`, `fill_buf` and `consume`
operations starting from `Reader::new`), the hash state equals a fresh
accumulator (`H::default()`) fed, in order, exactly the byte slices
delivered by the successful reads (the trace `tr`); `fill_buf` and
`consume` contribute nothing to the trace, so peeked or skipped bytes are
never reflected in the hash. -/
theorem C1_sync_hash_invariant (RC : ReadCap σ) (BC : BufCap σ)
    (HC : HashCap St D) (inner : σ) (ops : List Op) (r' : Reader σ St)
    (tr : List (List Byte))
    (h : Reader.run RC BC HC (Reader.new HC inner) ops = some (r', tr)) :
    r'.hash = List.foldl HC.update HC.dflt tr :=
  Reader.run_hash RC BC HC ops (Reader.new HC inner) r' tr h

/-- Witness for C1: stream `[1,2,3]`, a 2-byte read, a peek, a raw
consume of one byte, then a read at end of stream; the hash is `[1,2]` —
the delivered slices only — and the consumed byte `3` is absent. -/
theorem C1_sync_hash_invariant_witness :
    Reader.run listRead listBufCap listHash (Reader.new listHash [1, 2, 3])
        [Op.read [0, 0], Op.fill_buf, Op.consume 1, Op.read [9]] =
      some ({ inner := [], hash := [1, 2] }, [[1, 2], []]) ∧
    ([1, 2] : List Byte) =
      List.foldl listHash.update listHash.dflt [[1, 2], []] :=
  ⟨by decide,
   C1_sync_hash_invariant listRead listBufCap listHash [1, 2, 3]
     [Op.read [0, 0], Op.fill_buf, Op.consume 1, Op.read [9]]
     { inner := [], hash := [1, 2] } [[1, 2], []] (by decide)⟩

/-- Claim C2 (refuted): `AsyncReader::poll_read` calls
`hash.update(buf.filled())` — the ENTIRE filled region — not just the
bytes this poll delivered. With a `ReadBuf` already holding `[1, 2]` and
an inner stream delivering the single byte `3`, the fresh hash receives
`[1, 2, 3]` even though this call delivered only `[3]`: the pre-filled
bytes are (re-)hashed, contradicting the claim. -/
theorem C2_poll_read_rehashes_prefilled_bytes :
    AsyncReader.poll_read listPoll listHash
        { inner := [3], hash := [] } { filled := [1, 2], remaining := 1 } =
      (APoll.ready_ok, { filled := [1, 2, 3], remaining := 0 },
        { inner := [], hash := [1, 2, 3] }) ∧
    ([1, 2, 3] : List Byte) ≠ [3] := by
  exact ⟨by decide, by decide⟩

/-- Claim C3: for every buffer, when the inner read succeeds with an
honest count `n`, the wrapper feeds exactly `buf[0..n]` (the buffer
contents after the inner call) into `hash.update` and returns `n`; the
update happens even when `n = 0`. -/
theorem C3_read_success_updates_hash (RC : ReadCap σ) (HC : HashCap St D)
    (r : Reader σ St) (buf : List Byte) (n : Nat) (buf' : List Byte) (s : σ)
    (h : RC.read r.inner buf = ReadOut.ok n buf' s) (hn : n ≤ buf'.length) :
    Reader.read RC HC r buf =
      RwOut.ok n buf' { inner := s, hash := HC.update r.hash (List.take n buf') } :=
  Reader.read_ok_of_le RC HC r buf n buf' s h hn

/-- Witness for C3 at the end-of-stream case `n = 0`: the inner stream
is exhausted, the wrapper still performs `update` with the empty slice
and returns 0. -/
theorem C3_read_success_updates_hash_witness :
    listRead.read ([] : List Byte) [7] = ReadOut.ok 0 [7] [] ∧
    (0 : Nat) ≤ ([7] : List Byte).length ∧
    Reader.read listRead listHash { inner := [], hash := [] } [7] =
      RwOut.ok 0 [7] { inner := [], hash := listHash.update [] (List.take 0 [7]) } :=
  ⟨by decide, by decide,
   C3_read_success_updates_hash listRead listHash { inner := [], hash := [] }
     [7] 0 [7] [] (by decide) (by decide)⟩

/-- Claim C4: when the inner read fails, the wrapper returns the very
same error value and the hash state is exactly what it was before the
call. -/
theorem C4_read_error_propagated (RC : ReadCap σ) (HC : HashCap St D)
    (r : Reader σ St) (buf : List Byte) (e : IoError) (s : σ)
    (h : RC.read r.inner buf = ReadOut.err e s) :
    Reader.read RC HC r buf = RwOut.err e { inner := s, hash := r.hash } :=
  Reader.read_err RC HC r buf e s h

/-- Witness for C4: a stream that fails with error code 5; the wrapper
reports error 5 and the hash `[1]` is untouched. -/
theorem C4_read_error_propagated_witness :
    errRead.read () [7] = ReadOut.err 5 () ∧
    Reader.read errRead listHash { inner := (), hash := [1] } [7] =
      RwOut.err 5 { inner := (), hash := [1] } :=
  ⟨rfl,
   C4_read_error_propagated errRead listHash { inner := (), hash := [1] }
     [7] 5 () rfl⟩

/-- Claim C5: if one wrapper run delivers the trace `tr` (any split of
the stream, zero-length reads included) and another fresh wrapper
delivers the whole concatenation `tr.flatten` in a single read, the two
digests agree — provided the hash capability's `update` is
concatenation-compatible (a monoid action: empty update is the identity
and consecutive updates concatenate). -/
theorem C5_split_independence (HC : HashCap St D)
    (hempty : ∀ st, HC.update st [] = st)
    (hcompat : ∀ st a b, HC.update (HC.update st a) b = HC.update st (a ++ b))
    (RC₁ : ReadCap σ₁) (BC₁ : BufCap σ₁) (inner₁ : σ₁) (ops₁ : List Op)
    (r₁ : Reader σ₁ St) (tr : List (List Byte))
    (RC₂ : ReadCap σ₂) (BC₂ : BufCap σ₂) (inner₂ : σ₂) (ops₂ : List Op)
    (r₂ : Reader σ₂ St)
    (h₁ : Reader.run RC₁ BC₁ HC (Reader.new HC inner₁) ops₁ = some (r₁, tr))
    (h₂ : Reader.run RC₂ BC₂ HC (Reader.new HC inner₂) ops₂ =
      some (r₂, [tr.flatten])) :
    Reader.digest HC r₁ = Reader.digest HC r₂ := by
  have e₁ := Reader.run_hash RC₁ BC₁ HC ops₁ _ _ _ h₁
  have e₂ := Reader.run_hash RC₂ BC₂ HC ops₂ _ _ _ h₂
  unfold Reader.digest
  rw [e₁, e₂]
  rw [foldl_update_flatten HC hempty hcompat]
  simp only [List.foldl_cons, List.foldl_nil]
  exact rfl

/-- Witness for C5: stream `[1,2,3]` read through one-byte buffers with a
zero-length read interleaved, against a single three-byte read; both
digests are `[1,2,3]`. -/
theorem C5_split_independence_witness :
    Reader.run listRead listBufCap listHash (Reader.new listHash [1, 2, 3])
        [Op.read [0], Op.read [], Op.read [0], Op.read [0]] =
      some ({ inner := [], hash := [1, 2, 3] }, [[1], [], [2], [3]]) ∧
    Reader.run listRead listBufCap listHash (Reader.new listHash [1, 2, 3])
        [Op.read [0, 0, 0]] =
      some ({ inner := [], hash := [1, 2, 3] }, [[1, 2, 3]]) ∧
    Reader.digest listHash
        ({ inner := [], hash := [1, 2, 3] } : Reader (List Byte) (List Byte)) =
      Reader.digest listHash
        ({ inner := [], hash := [1, 2, 3] } : Reader (List Byte) (List Byte)) :=
  ⟨by decide, by decide,
   C5_split_independence listHash (fun st => by simp [listHash])
     (fun st a b => by simp [listHash])
     listRead listBufCap [1, 2, 3]
     [Op.read [0], Op.read [], Op.read [0], Op.read [0]]
     { inner := [], hash := [1, 2, 3] } [[1], [], [2], [3]]
     listRead listBufCap [1, 2, 3] [Op.read [0, 0, 0]]
     { inner := [], hash := [1, 2, 3] }
     (by decide) (by decide)⟩

/-- Claim C6: the wrapper's `fill_buf` returns exactly what the inner
`fill_buf` returns and leaves the inner stream in the state the inner
call left it; `consume` delegates to the inner `consume`; in both cases
the hash state after equals the hash state before. -/
theorem C6_bufread_delegates_without_hashing (BC : BufCap σ)
    (r : Reader σ St) (amt : Nat) :
    (Reader.fill_buf BC r).1 = (BC.fill_buf r.inner).1 ∧
    (Reader.fill_buf BC r).2.inner = (BC.fill_buf r.inner).2 ∧
    (Reader.fill_buf BC r).2.hash = r.hash ∧
    (Reader.consume BC r amt).inner = BC.consume r.inner amt ∧
    (Reader.consume BC r amt).hash = r.hash :=
  ⟨rfl, rfl, rfl, rfl, rfl⟩

/-- Claim C7: a wrapper built by `with_hash` from an accumulator that
already reflects the slices `Ys` and then run to deliver the trace `tr`
produces the same digest as a fresh wrapper whose run delivers
`Ys ++ tr`; moreover `with_hash` and `new` are pure pairing: they store
the given stream and hash untouched and perform no operation on the
stream. -/
theorem C7_resumed_hashing (HC : HashCap St D)
    (RC₁ : ReadCap σ₁) (BC₁ : BufCap σ₁) (inner₁ : σ₁) (ops₁ : List Op)
    (Ys : List (List Byte)) (r₁ : Reader σ₁ St) (tr : List (List Byte))
    (RC₂ : ReadCap σ₂) (BC₂ : BufCap σ₂) (inner₂ : σ₂) (ops₂ : List Op)
    (r₂ : Reader σ₂ St)
    (h₁ : Reader.run RC₁ BC₁ HC
        (Reader.with_hash inner₁ (List.foldl HC.update HC.dflt Ys)) ops₁ =
      some (r₁, tr))
    (h₂ : Reader.run RC₂ BC₂ HC (Reader.new HC inner₂) ops₂ =
      some (r₂, Ys ++ tr)) :
    Reader.digest HC r₁ = Reader.digest HC r₂ ∧
    (∀ (i : σ₁) (hs : St),
      (Reader.with_hash i hs).inner = i ∧ (Reader.with_hash i hs).hash = hs) ∧
    (∀ (i : σ₁),
      (Reader.new HC i).inner = i ∧ (Reader.new HC i).hash = HC.dflt) := by
  refine ⟨?_, fun i hs => ⟨rfl, rfl⟩, fun i => ⟨rfl, rfl⟩⟩
  have e₁ := Reader.run_hash RC₁ BC₁ HC ops₁ _ _ _ h₁
  have e₂ := Reader.run_hash RC₂ BC₂ HC ops₂ _ _ _ h₂
  unfold Reader.digest
  rw [e₁, e₂]
  simp only [Reader.with_hash, Reader.new]
  rw [List.foldl_append]

/-- Witness for C7: prior slices `Ys = [[1,2]]`, resumed wrapper reads
`[3]`; fresh wrapper reads `[1,2]` then `[3]`; digests agree. -/
theorem C7_resumed_hashing_witness :
    Reader.run listRead listBufCap listHash
        (Reader.with_hash [3]
          (List.foldl listHash.update listHash.dflt [[1, 2]]))
        [Op.read [0]] =
      some ({ inner := [], hash := [1, 2, 3] }, [[3]]) ∧
    Reader.run listRead listBufCap listHash (Reader.new listHash [1, 2, 3])
        [Op.read [0, 0], Op.read [0]] =
      some ({ inner := [], hash := [1, 2, 3] }, [[1, 2], [3]]) ∧
    Reader.digest listHash
        ({ inner := [], hash := [1, 2, 3] } : Reader (List Byte) (List Byte)) =
      Reader.digest listHash
        ({ inner := [], hash := [1, 2, 3] } : Reader (List Byte) (List Byte)) :=
  ⟨by decide, by decide,
   (C7_resumed_hashing listHash listRead listBufCap [3] [Op.read [0]]
     [[1, 2]] { inner := [], hash := [1, 2, 3] } [[3]]
     listRead listBufCap [1, 2, 3] [Op.read [0, 0], Op.read [0]]
     { inner := [], hash := [1, 2, 3] }
     (by decide) (by decide)).1⟩

/-- Claim C8: `into_inner` (sync and async) returns exactly the stored
inner stream — a pure projection that performs no read, consume or any
other operation on it — discarding the hash. -/
theorem C8_into_inner_pure (r : Reader σ St) (a : AsyncReader σ₂ St₂) :
    Reader.into_inner r = r.inner ∧ AsyncReader.into_inner a = a.inner :=
  ⟨rfl, rfl⟩

/-- Claim C9: `digest` is a pure observation of the hash accumulator
(taking the wrapper immutably, mirroring the `&self` receiver): after any
run it returns the digest of exactly the delivered trace, and running
further operations from the same state continues to accumulate onto that
trace; the async `digest` likewise only reads the hash field. -/
theorem C9_digest_pure_observation (RC : ReadCap σ) (BC : BufCap σ)
    (HC : HashCap St D) (inner : σ) (ops : List Op) (r' : Reader σ St)
    (tr : List (List Byte))
    (h : Reader.run RC BC HC (Reader.new HC inner) ops = some (r', tr)) :
    Reader.digest HC r' = HC.digest (List.foldl HC.update HC.dflt tr) ∧
    (∀ (ops₂ : List Op) (r'' : Reader σ St) (tr₂ : List (List Byte)),
      Reader.run RC BC HC r' ops₂ = some (r'', tr₂) →
      Reader.digest HC r'' =
        HC.digest (List.foldl HC.update HC.dflt (tr ++ tr₂))) ∧
    (∀ (a : AsyncReader σ St), AsyncReader.digest HC a = HC.digest a.hash) := by
  refine ⟨?_, ?_, fun a => rfl⟩
  · unfold Reader.digest
    rw [Reader.run_hash RC BC HC ops _ _ _ h]
    exact rfl
  · intro ops₂ r'' tr₂ h₂
    unfold Reader.digest
    rw [Reader.run_hash RC BC HC ops₂ _ _ _ h₂,
      Reader.run_hash RC BC HC ops _ _ _ h, List.foldl_append]
    exact rfl

/-- Witness for C9: after reading `[1]` from stream `[1,2]`, the digest
is the fold of the trace `[[1]]`. -/
theorem C9_digest_pure_observation_witness :
    Reader.run listRead listBufCap listHash (Reader.new listHash [1, 2])
        [Op.read [0]] = some ({ inner := [2], hash := [1] }, [[1]]) ∧
    Reader.digest listHash
        ({ inner := [2], hash := [1] } : Reader (List Byte) (List Byte)) =
      listHash.digest (List.foldl listHash.update listHash.dflt [[1]]) :=
  ⟨by decide,
   (C9_digest_pure_observation listRead listBufCap listHash [1, 2]
     [Op.read [0]] { inner := [2], hash := [1] } [[1]] (by decide)).1⟩

/-- Claim C10: when the inner read succeeds, the wrapper's read is total
(returns normally) exactly when the reported count honours the `Read`
contract `n ≤ buf.len()`; a misbehaving inner stream reporting
`n > buf.len()` makes the slice `&buf[..n]` out of bounds and the
wrapper panics instead of returning an error. -/
theorem C10_read_total_or_panics (RC : ReadCap σ) (HC : HashCap St D)
    (r : Reader σ St) (buf : List Byte) (n : Nat) (buf' : List Byte) (s : σ)
    (h : RC.read r.inner buf = ReadOut.ok n buf' s) :
    (n ≤ buf'.length →
      Reader.read RC HC r buf =
        RwOut.ok n buf'
          { inner := s, hash := HC.update r.hash (List.take n buf') }) ∧
    (buf'.length < n → Reader.read RC HC r buf = RwOut.panicked) :=
  ⟨fun hn => Reader.read_ok_of_le RC HC r buf n buf' s h hn,
   fun hn => Reader.read_panic_of_gt RC HC r buf n buf' s h hn⟩

/-- Witness for C10: a misbehaving stream reports 2 bytes read into a
1-byte buffer; the wrapper panics. -/
theorem C10_read_total_or_panics_witness :
    badRead.read () [7] = ReadOut.ok 2 [7] () ∧
    Reader.read badRead listHash { inner := (), hash := [] } [7] =
      RwOut.panicked :=
  ⟨rfl,
   (C10_read_total_or_panics badRead listHash { inner := (), hash := [] }
     [7] 2 [7] () rfl).2 (by decide)⟩

end Chksum
